import Mathlib

/-!
Verification development for the tokmd engine.

The repository surface contains the Python binding layer and its tests; the
engine itself (Aggregator, Exporter, Analyzer, Diff Engine, Schema Contract)
is the component specified in spec.md and is not part of the visible sources.
All engine definitions below are therefore modelled from the spec: paths are
modelled as segment lists, machine integers as Nat/Int, and the JSON boundary
as a small executable JSON value type with a fuel-based parser.
-/

namespace Tokmd

/-- Modelled from the spec: `FileRecord` is the raw per-file record produced by
the external record source, one per scanned file, consumed read-only by the
engine.  A path is modelled as its list of segments. -/
structure FileRecord where
  path : List String
  language : String
  code : Nat
  comments : Nat
  blanks : Nat
  lines : Nat
  tokens : Nat
deriving DecidableEq, Repr

/-- Modelled from the spec: the numeric payload shared by `LanguageRow` and
`ModuleRow` (`files`, `code`, `comments`, `blanks`, `tokens`). -/
structure RowVals where
  files : Nat
  code : Nat
  comments : Nat
  blanks : Nat
  tokens : Nat
deriving DecidableEq, Repr

/-- Modelled from the spec: an aggregated row, keyed by language name or
module key. -/
structure AggRow (K : Type) where
  key : K
  vals : RowVals
deriving DecidableEq, Repr

def zeroVals : RowVals := ⟨0, 0, 0, 0, 0⟩

def addVals (a b : RowVals) : RowVals :=
  ⟨a.files + b.files, a.code + b.code, a.comments + b.comments,
   a.blanks + b.blanks, a.tokens + b.tokens⟩

section Grouping

variable {K : Type} [DecidableEq K]

/-- Modelled from the spec: the sum of a numeric field over the fiber of
records whose grouping key equals `key`. -/
def fiberSum (k : FileRecord → K) (f : FileRecord → Nat) (key : K) :
    List FileRecord → Nat
  | [] => 0
  | r :: rs => (if k r = key then f r else 0) + fiberSum k f key rs

/-- Modelled from the spec: the aggregated numeric payload of the group with
key `key` ("partitions records by key; sums each field", with `files` the
number of records in the group). -/
def groupVals (k : FileRecord → K) (key : K) (rs : List FileRecord) : RowVals :=
  ⟨fiberSum k (fun _ => 1) key rs,
   fiberSum k (·.code) key rs,
   fiberSum k (·.comments) key rs,
   fiberSum k (·.blanks) key rs,
   fiberSum k (·.tokens) key rs⟩

/-- Code total of the group with key `key`; the primary sort measure. -/
def groupCode (k : FileRecord → K) (rs : List FileRecord) (key : K) : Nat :=
  fiberSum k (·.code) key rs

/-- The distinct grouping keys of a record sequence, in first-seen order. -/
def groupKeys (k : FileRecord → K) (rs : List FileRecord) : List K :=
  (rs.map k).dedup

end Grouping

/-- Modelled from the spec: the row ordering relation, "sorts rows by `code`
descending, ties broken by key ascending for determinism".  `f` is the
descending measure and `g` the ascending tiebreak. -/
@[reducible] def lexRel {α K : Type} [LinearOrder K] (f : α → Nat) (g : α → K)
    (a b : α) : Prop :=
  f b < f a ∨ (f a = f b ∧ g a ≤ g b)

instance lexRelDecidable {α K : Type} [LinearOrder K] (f : α → Nat) (g : α → K) :
    DecidableRel (lexRel f g) := fun _ _ =>
  inferInstanceAs (Decidable (_ ∨ _))

section GroupRows

variable {K : Type} [DecidableEq K] [LinearOrder K]

/-- Modelled from the spec: the Aggregator's grouping pass — partition the
records by the grouping key, sum each numeric field per group, and sort the
resulting rows by `code` descending with the key as ascending tiebreak. -/
def groupRows (k : FileRecord → K) (rs : List FileRecord) : List (AggRow K) :=
  (List.insertionSort (lexRel (groupCode k rs) id) (groupKeys k rs)).map
    (fun key => ⟨key, groupVals k key rs⟩)

/-- Modelled from the spec: fold a run of rows into one synthetic row by
summing their numeric fields (used for the `"Other"` row). -/
def foldVals (rows : List (AggRow K)) : RowVals :=
  rows.foldr (fun r acc => addVals r.vals acc) zeroVals

/-- Modelled from the spec: top-N collapsing — with `top = k` set, keep the
first `k` rows and fold all remaining rows into one synthetic row with key
`otherKey`; if no more than `k` rows exist, leave the rows unchanged;
`top` unset means all rows are returned. -/
def topCollapse (otherKey : K) (top : Option Nat) (rows : List (AggRow K)) :
    List (AggRow K) :=
  match top with
  | none => rows
  | some k =>
      if rows.length ≤ k then rows
      else rows.take k ++ [⟨otherKey, foldVals (rows.drop k)⟩]

end GroupRows

/-- Modelled from the spec: by-language aggregation with optional top-N
collapsing into the synthetic `"Other"` row. -/
def langRows (top : Option Nat) (rs : List FileRecord) : List (AggRow String) :=
  topCollapse "Other" top (groupRows (·.language) rs)

/-- Sum of the `code` field over a row list. -/
def rowsCodeSum {K : Type} (rows : List (AggRow K)) : Nat :=
  (rows.map (·.vals.code)).sum

/-- Sum of the `code` field over the raw input records. -/
def recordsCodeSum (rs : List FileRecord) : Nat :=
  (rs.map (·.code)).sum

/-- Modelled from the spec: the `children` policy of by-module grouping,
a closed-choice field with values `"collapse"` and `"separate"`. -/
inductive Children where
  | collapse
  | separate
deriving DecidableEq, Repr

/-- Modelled from the spec: derive a record's module key.  When `module_roots`
are configured, records outside every root are grouped under the catch-all key
`⊥`; otherwise the key is the path truncated to `module_depth` segments under
the `"collapse"` children policy, or the full distinct path under
`"separate"`. -/
def moduleKey (roots : List (List String)) (children : Children) (depth : Nat)
    (r : FileRecord) : WithBot (List String) :=
  if roots.isEmpty || roots.any (fun root => root.isPrefixOf r.path) then
    match children with
    | .collapse => (↑(r.path.take depth) : WithBot (List String))
    | .separate => (↑r.path : WithBot (List String))
  else ⊥

/-- Modelled from the spec: by-module aggregation — group records by module
key, sum each field, sort by `code` descending with the key as tiebreak. -/
def moduleRows (roots : List (List String)) (children : Children) (depth : Nat)
    (rs : List FileRecord) : List (AggRow (WithBot (List String))) :=
  groupRows (moduleKey roots children depth) rs

/-- Number of distinct module rows produced for a record sequence. -/
def moduleRowCount (roots : List (List String)) (children : Children)
    (depth : Nat) (rs : List FileRecord) : Nat :=
  (moduleRows roots children depth rs).length

/-- Total sort key of a record used as the deterministic tiebreak of the
Exporter's `code`-descending order: it lists every field of the record, so
records compare equal only when they are equal. -/
def exportKey (r : FileRecord) :
    (List String) ×ₗ (String ×ₗ (List Nat)) :=
  toLex (r.path, toLex (r.language, [r.code, r.comments, r.blanks, r.lines, r.tokens]))

/-- Modelled from the spec: the Exporter — filter to records with
`code >= min_code` first, sort by `code` descending for stable truncation,
then truncate to `max_rows` when it is set.  One row per surviving file, no
aggregation. -/
def exportRows (min_code : Nat) (max_rows : Option Nat)
    (rs : List FileRecord) : List FileRecord :=
  let sorted := List.insertionSort (lexRel (·.code) exportKey)
    (rs.filter (fun r => decide (min_code ≤ r.code)))
  match max_rows with
  | none => sorted
  | some m => sorted.take m

/-- Modelled from the spec: the numeric row fields the Analyzer's metric
definitions may reference. -/
inductive MField where
  | files
  | code
  | comments
  | blanks
  | tokens
deriving DecidableEq, Repr

def MField.get : MField → RowVals → Nat
  | .files, v => v.files
  | .code, v => v.code
  | .comments, v => v.comments
  | .blanks, v => v.blanks
  | .tokens, v => v.tokens

/-- Total of one numeric field over aggregated rows. -/
def totalField {K : Type} (rows : List (AggRow K)) (fld : MField) : Nat :=
  (rows.map (fun r => fld.get r.vals)).sum

/-- Modelled from the spec: a declarative metric definition — a totals
bundle entry, a ratio metric, or a boolean threshold flag. -/
inductive MetricDef where
  | total (fld : MField)
  | ratio (num den : MField)
  | flagGt (fld : MField) (threshold : Nat)
deriving DecidableEq, Repr

inductive MetricValue where
  | num (q : Rat)
  | flag (b : Bool)
deriving DecidableEq, Repr

/-- Evaluate one metric definition against the aggregated rows. -/
def evalMetric {K : Type} (rows : List (AggRow K)) : MetricDef → MetricValue
  | .total fld => .num (totalField rows fld)
  | .ratio n d =>
      .num (if totalField rows d = 0 then 0
            else (totalField rows n : Rat) / (totalField rows d : Rat))
  | .flagGt fld t => .flag (decide (t < totalField rows fld))

/-- Modelled from the spec: the registered preset table — presets are data
(name to metric-definition list), not hand-written logic per preset name. -/
def presets : List (String × List (String × MetricDef)) :=
  [("totals",
    [("files", .total .files), ("code", .total .code),
     ("comments", .total .comments), ("blanks", .total .blanks),
     ("tokens", .total .tokens)]),
   ("health",
    [("code", .total .code), ("comment_density", .ratio .comments .code),
     ("large_codebase", .flagGt .code 100000)]),
   ("risk",
    [("token_density", .ratio .tokens .code),
     ("low_comments", .flagGt .code 0)]),
   ("supply",
    [("files", .total .files), ("tokens", .total .tokens)])]

/-- Modelled from the spec: the Analyzer — evaluate the metric-definition
table registered under the preset name against the aggregated rows; an
unknown preset name yields no derived bundle (a validation error at the
boundary, never a silent fallback). -/
def analyzeDerived {K : Type} (preset : String) (rows : List (AggRow K)) :
    Option (List (String × MetricValue)) :=
  match presets.lookup preset with
  | none => none
  | some defs => some (defs.map (fun nd => (nd.1, evalMetric rows nd.2)))

/-- Modelled from the spec: signed per-field deltas of a DiffRow
(`delta = to.value - from.value`). -/
structure DeltaVals where
  files : Int
  code : Int
  comments : Int
  blanks : Int
  tokens : Int
deriving DecidableEq, Repr

def zeroDelta : DeltaVals := ⟨0, 0, 0, 0, 0⟩

def deltaOf (fromV toV : RowVals) : DeltaVals :=
  ⟨(toV.files : Int) - fromV.files, (toV.code : Int) - fromV.code,
   (toV.comments : Int) - fromV.comments, (toV.blanks : Int) - fromV.blanks,
   (toV.tokens : Int) - fromV.tokens⟩

/-- Modelled from the spec: `pct_change` is `delta / from` when `from != 0`,
flagged undefined (`none`) when `from = 0` and `delta != 0`, and `0` when
both are zero. -/
def pctChange (fromCode : Nat) (delta : Int) : Option Rat :=
  if fromCode ≠ 0 then some ((delta : Rat) / (fromCode : Rat))
  else if delta ≠ 0 then none
  else some 0

/-- Modelled from the spec: one diff row per key present in either input. -/
structure DiffRow (K : Type) where
  key : K
  fromVals : RowVals
  toVals : RowVals
  delta : DeltaVals
  pct : Option Rat
deriving DecidableEq, Repr

/-- Row values for a key on one side; keys absent on one side get the
implicit all-zero value on that side. -/
def lookupVals {K : Type} [DecidableEq K] (rows : List (AggRow K)) (key : K) :
    RowVals :=
  match rows.find? (fun r => decide (r.key = key)) with
  | some r => r.vals
  | none => zeroVals

/-- Modelled from the spec: the Diff Engine — outer-join two row sets by
stable key (sorted ascending for determinism), treat a missing side as
all-zero, and emit signed deltas with the percent change of the `code`
field. -/
def diffRows {K : Type} [DecidableEq K] [LinearOrder K]
    (fromRows toRows : List (AggRow K)) : List (DiffRow K) :=
  (List.insertionSort (· ≤ ·)
      ((fromRows.map (·.key) ++ toRows.map (·.key)).dedup)).map
    (fun key =>
      let f := lookupVals fromRows key
      let t := lookupVals toRows key
      ⟨key, f, t, deltaOf f t, pctChange f.code ((t.code : Int) - (f.code : Int))⟩)

/-- Modelled from the spec: the JSON-like value shape of the envelope
contract consumed and produced at the engine boundary. -/
inductive Json where
  | null
  | bool (b : Bool)
  | num (n : Int)
  | str (s : String)
  | arr (elems : List Json)
  | obj (members : List (String × Json))

def skipWs : List Char → List Char
  | [] => []
  | c :: cs => if c = ' ' ∨ c = '\n' ∨ c = '\t' ∨ c = '\r' then skipWs cs else c :: cs

def takeStr : List Char → Option (List Char × List Char)
  | [] => none
  | c :: rest =>
      if c = '"' then some ([], rest)
      else
        match takeStr rest with
        | none => none
        | some p => some (c :: p.1, p.2)

def digitVal (c : Char) : Nat := c.toNat - '0'.toNat

def takeDigits : List Char → (List Nat × List Char)
  | [] => ([], [])
  | c :: rest =>
      if c.isDigit then
        let p := takeDigits rest
        (digitVal c :: p.1, p.2)
      else ([], c :: rest)

def natOfDigits (ds : List Nat) : Nat := ds.foldl (fun acc d => 10 * acc + d) 0

mutual

/-- Modelled from the spec: a fuel-based recursive-descent parser for the
argument payload (simplified JSON grammar: integer numbers, strings without
escape sequences). -/
def parseValue : Nat → List Char → Option (Json × List Char)
  | 0, _ => none
  | fuel + 1, cs =>
      match skipWs cs with
      | [] => none
      | c :: rest =>
          if c = '\x7b' then
            match skipWs rest with
            | '\x7d' :: rest2 => some (.obj [], rest2)
            | other => parseMembers fuel other []
          else if c = '[' then
            match skipWs rest with
            | ']' :: rest2 => some (.arr [], rest2)
            | other => parseElems fuel other []
          else if c = '"' then
            match takeStr rest with
            | some p => some (.str (String.mk p.1), p.2)
            | none => none
          else if c = 't' then
            match rest with
            | 'r' :: 'u' :: 'e' :: rest2 => some (.bool true, rest2)
            | _ => none
          else if c = 'f' then
            match rest with
            | 'a' :: 'l' :: 's' :: 'e' :: rest2 => some (.bool false, rest2)
            | _ => none
          else if c = 'n' then
            match rest with
            | 'u' :: 'l' :: 'l' :: rest2 => some (.null, rest2)
            | _ => none
          else if c = '-' then
            match takeDigits rest with
            | ([], _) => none
            | (ds, rest2) => some (.num (-(natOfDigits ds : Int)), rest2)
          else if c.isDigit then
            match takeDigits (c :: rest) with
            | ([], _) => none
            | (ds, rest2) => some (.num (natOfDigits ds : Int), rest2)
          else none

def parseMembers : Nat → List Char → List (String × Json) →
    Option (Json × List Char)
  | 0, _, _ => none
  | fuel + 1, cs, acc =>
      match skipWs cs with
      | '"' :: rest =>
          match takeStr rest with
          | none => none
          | some p =>
              match skipWs p.2 with
              | ':' :: r2 =>
                  match parseValue fuel r2 with
                  | none => none
                  | some v =>
                      match skipWs v.2 with
                      | ',' :: r4 => parseMembers fuel r4 (acc ++ [(String.mk p.1, v.1)])
                      | '\x7d' :: r4 => some (.obj (acc ++ [(String.mk p.1, v.1)]), r4)
                      | _ => none
              | _ => none
      | _ => none

def parseElems : Nat → List Char → List Json → Option (Json × List Char)
  | 0, _, _ => none
  | fuel + 1, cs, acc =>
      match parseValue fuel cs with
      | none => none
      | some v =>
          match skipWs v.2 with
          | ',' :: r2 => parseElems fuel r2 (acc ++ [v.1])
          | ']' :: r2 => some (.arr (acc ++ [v.1]), r2)
          | _ => none

end

/-- Parse a whole payload string; trailing content after the value makes the
payload malformed. -/
def parseJson (s : String) : Option Json :=
  match parseValue (s.length + 1) s.toList with
  | none => none
  | some p => if skipWs p.2 = [] then some p.1 else none

def lookupMember : List (String × Json) → String → Option Json
  | [], _ => none
  | kv :: rest, key => if kv.1 = key then some kv.2 else lookupMember rest key

def objLookup (j : Json) (key : String) : Option Json :=
  match j with
  | .obj members => lookupMember members key
  | _ => none

def jNatField (j : Json) (key : String) : Option Nat :=
  match objLookup j key with
  | some (.num n) => if 0 ≤ n then some n.toNat else none
  | _ => none

def jBoolField (j : Json) (key : String) (dflt : Bool) : Bool :=
  match objLookup j key with
  | some (.bool b) => b
  | _ => dflt

def jStrField (j : Json) (key : String) : Option String :=
  match objLookup j key with
  | some (.str s) => some s
  | _ => none

def jStrListField (j : Json) (key : String) : List String :=
  match objLookup j key with
  | some (.arr xs) => xs.filterMap (fun x => match x with | .str s => some s | _ => none)
  | _ => []

def splitPath (s : String) : List String := s.splitOn "/"

/-- Modelled from the spec: the engine's semantic version (opaque to the
claims beyond being a nonempty dotted string). -/
def versionString : String := "0.1.0"

/-- Modelled from the spec: the stable schema version tag of every receipt. -/
def SCHEMA_VERSION : Nat := 1

def rowValsJson (v : RowVals) : List (String × Json) :=
  [("files", .num (v.files : Int)), ("code", .num (v.code : Int)),
   ("comments", .num (v.comments : Int)), ("blanks", .num (v.blanks : Int)),
   ("tokens", .num (v.tokens : Int))]

def langRowJson (r : AggRow String) : Json :=
  .obj (("lang", .str r.key) :: rowValsJson r.vals)

def moduleName (k : Option (List String)) : String :=
  match k with
  | none => "(other)"
  | some segs => String.intercalate "/" segs

def moduleRowJson (r : AggRow (WithBot (List String))) : Json :=
  .obj (("module", .str (moduleName r.key)) :: rowValsJson r.vals)

def exportRowJson (r : FileRecord) : Json :=
  .obj [("path", .str (String.intercalate "/" r.path)),
        ("language", .str r.language),
        ("code", .num (r.code : Int)), ("comments", .num (r.comments : Int)),
        ("blanks", .num (r.blanks : Int)), ("lines", .num (r.lines : Int)),
        ("tokens", .num (r.tokens : Int))]

def metricValueJson : MetricValue → Json
  | .num q => .obj [("num", .num q.num), ("den", .num (q.den : Int))]
  | .flag b => .bool b

def optNatJson : Option Nat → Json
  | none => .null
  | some n => .num (n : Int)

def diffRowJson (d : DiffRow String) : Json :=
  .obj [("key", .str d.key), ("from", .obj (rowValsJson d.fromVals)),
        ("to", .obj (rowValsJson d.toVals)), ("delta", .num d.delta.code),
        ("pct_change",
          match d.pct with
          | none => .null
          | some q => .obj [("num", .num q.num), ("den", .num (q.den : Int))])]

/-- Modelled from the spec: the structured error shape
`{error: true, code, message}`. -/
def errorEnvelope (code msg : String) : Json :=
  .obj [("error", .bool true), ("code", .str code), ("message", .str msg)]

def isErrorEnvelope (j : Json) : Bool :=
  match objLookup j "error" with
  | some (.bool true) => true
  | _ => false

/-- Modelled from the spec: the engine dispatcher over an already-parsed
argument object.  `src` stands for the record sequence supplied by the
external raw record source; the `diff` mode's receipt loading is external,
so it is modelled as diffing the current source against itself. -/
def runJsonCore (src : List FileRecord) (mode : String) (j : Json) : Json :=
  if mode = "version" then
    .obj [("version", .str versionString),
          ("schema_version", .num (SCHEMA_VERSION : Int))]
  else if mode = "lang" then
    let top := jNatField j "top"
    let withFiles := jBoolField j "files" false
    let children := (jStrField j "children").getD "collapse"
    if children ≠ "collapse" ∧ children ≠ "separate" then
      errorEnvelope "invalid_args" "children must be collapse or separate"
    else
      .obj [("mode", .str "lang"), ("schema_version", .num (SCHEMA_VERSION : Int)),
            ("args", .obj [("paths", .arr ((jStrListField j "paths").map .str)),
                           ("top", optNatJson top), ("with_files", .bool withFiles),
                           ("children", .str children)]),
            ("rows", .arr ((langRows top src).map langRowJson))]
  else if mode = "module" then
    let depth := (jNatField j "module_depth").getD 2
    let roots := (jStrListField j "module_roots").map splitPath
    let children := if (jStrField j "children").getD "collapse" = "separate"
      then Children.separate else Children.collapse
    if depth = 0 then errorEnvelope "invalid_args" "module_depth must be positive"
    else
      .obj [("mode", .str "module"), ("schema_version", .num (SCHEMA_VERSION : Int)),
            ("args", .obj [("module_roots", .arr ((jStrListField j "module_roots").map .str)),
                           ("module_depth", .num (depth : Int))]),
            ("rows", .arr ((moduleRows roots children depth src).map moduleRowJson))]
  else if mode = "export" then
    let minCode := (jNatField j "min_code").getD 0
    let maxRows := jNatField j "max_rows"
    if maxRows = some 0 then errorEnvelope "invalid_args" "max_rows must be positive"
    else
      .obj [("mode", .str "export"), ("schema_version", .num (SCHEMA_VERSION : Int)),
            ("args", .obj [("min_code", .num (minCode : Int)),
                           ("max_rows", optNatJson maxRows)]),
            ("rows", .arr ((exportRows minCode maxRows src).map exportRowJson))]
  else if mode = "analyze" then
    let preset := (jStrField j "preset").getD "health"
    match analyzeDerived preset (groupRows (·.language) src) with
    | none => errorEnvelope "invalid_preset" "unknown analyze preset"
    | some derived =>
        .obj [("mode", .str "analyze"), ("schema_version", .num (SCHEMA_VERSION : Int)),
              ("args", .obj [("preset", .str preset)]),
              ("rows", .arr ((groupRows (·.language) src).map langRowJson)),
              ("derived", .obj (derived.map (fun nv => (nv.1, metricValueJson nv.2))))]
  else if mode = "diff" then
    match jStrField j "from", jStrField j "to" with
    | some f, some t =>
        .obj [("mode", .str "diff"), ("schema_version", .num (SCHEMA_VERSION : Int)),
              ("args", .obj [("from", .str f), ("to", .str t)]),
              ("rows", .arr ((diffRows (groupRows (·.language) src)
                (groupRows (·.language) src)).map diffRowJson))]
    | _, _ => errorEnvelope "invalid_args" "diff requires from and to"
  else errorEnvelope "invalid_mode" ("unknown mode: " ++ mode)

/-- Modelled from the spec: the engine boundary — parse the argument payload
(a malformed payload yields the `invalid_json` envelope), then dispatch on
the mode name; every outcome is a structured envelope, never an exception. -/
def runJson (src : List FileRecord) (mode : String) (payload : String) : Json :=
  match parseJson payload with
  | none => errorEnvelope "invalid_json" "malformed argument payload"
  | some j => runJsonCore src mode j

/-- Modelled from the binding layer: the typed error the wrapper raises when
the engine returns an error envelope. -/
structure TokmdError where
  code : String
  message : String
deriving DecidableEq, Repr

/-- Modelled from the binding layer and its tests: `run` calls the engine and
re-raises an error envelope as a `TokmdError`; a success envelope is returned
unchanged. -/
def run (src : List FileRecord) (mode : String) (j : Json) :
    Except TokmdError Json :=
  let out := runJsonCore src mode j
  match objLookup out "error" with
  | some (.bool true) =>
      .error ⟨(match objLookup out "code" with
               | some (.str c) => c
               | _ => "unknown"),
              (match objLookup out "message" with
               | some (.str m) => m
               | _ => "")⟩
  | _ => .ok out

/-- Modelled from the binding layer: the caller-supplied lang-mode options;
`none` means the caller did not supply the option. -/
structure LangOptions where
  paths : List String
  top : Option Nat
  files : Option Bool
  children : Option String
deriving DecidableEq, Repr

/-- Modelled from the spec: the fully resolved and defaulted lang-mode
configuration echoed in the receipt. -/
structure LangArgs where
  paths : List String
  top : Option Nat
  with_files : Bool
  children : String
deriving DecidableEq, Repr

/-- Modelled from the spec and the binding tests: resolve and default the
caller-supplied options; the caller's `files` flag is normalized to the
`with_files` key, absent flags take their defaults. -/
def resolveLangArgs (o : LangOptions) : LangArgs :=
  ⟨o.paths, o.top, o.files.getD false, o.children.getD "collapse"⟩

/-- Modelled from the spec: the success receipt of a lang-mode call. -/
structure LangReceipt where
  mode : String
  schema_version : Nat
  args : LangArgs
  rows : List (AggRow String)
deriving DecidableEq, Repr

/-- Modelled from the spec: a successful lang-mode call — rows are produced
from the resolved configuration, and the receipt echoes exactly that resolved
configuration in its `args` field. -/
def langReceipt (o : LangOptions) (rs : List FileRecord) : LangReceipt :=
  ⟨"lang", SCHEMA_VERSION, resolveLangArgs o, langRows (resolveLangArgs o).top rs⟩

/-- Concrete sample record used to instantiate the verified properties. -/
def sampleA : FileRecord := ⟨["src", "a"], "LangA", 1, 0, 0, 1, 1⟩

/-- Concrete sample record used to instantiate the verified properties. -/
def sampleB : FileRecord := ⟨["src", "b"], "LangB", 2, 1, 0, 3, 4⟩

/-- Concrete sample record used to instantiate the verified properties. -/
def sampleC : FileRecord := ⟨["docs", "c"], "LangC", 5, 0, 1, 6, 7⟩

/-- A concrete record sequence. -/
def sampleRecs : List FileRecord := [sampleA, sampleB, sampleC]

/-- The same record sequence supplied in a different scan order. -/
def sampleRecsSwapped : List FileRecord := [sampleC, sampleA, sampleB]

theorem lexRel_total {α K : Type} [LinearOrder K] (f : α → Nat) (g : α → K)
    (a b : α) : lexRel f g a b ∨ lexRel f g b a := by
  rcases lt_trichotomy (f a) (f b) with h | h | h
  · exact Or.inr (Or.inl h)
  · rcases le_total (g a) (g b) with hg | hg
    · exact Or.inl (Or.inr ⟨h, hg⟩)
    · exact Or.inr (Or.inr ⟨h.symm, hg⟩)
  · exact Or.inl (Or.inl h)

theorem lexRel_trans {α K : Type} [LinearOrder K] (f : α → Nat) (g : α → K)
    {a b c : α} (hab : lexRel f g a b) (hbc : lexRel f g b c) :
    lexRel f g a c := by
  rcases hab with h1 | ⟨h1, hg1⟩
  · rcases hbc with h2 | ⟨h2, _⟩
    · exact Or.inl (h2.trans h1)
    · exact Or.inl (h2 ▸ h1)
  · rcases hbc with h2 | ⟨h2, hg2⟩
    · exact Or.inl (h1 ▸ h2)
    · exact Or.inr ⟨h1.trans h2, hg1.trans hg2⟩

theorem lexRel_antisymm {α K : Type} [LinearOrder K] {f : α → Nat} {g : α → K}
    (hg : Function.Injective g) {a b : α}
    (hab : lexRel f g a b) (hba : lexRel f g b a) : a = b := by
  rcases hab with h1 | ⟨h1, hg1⟩
  · rcases hba with h2 | ⟨h2, _⟩
    · exact absurd (h1.trans h2) (lt_irrefl _)
    · exact absurd h1 (h2 ▸ lt_irrefl _)
  · rcases hba with h2 | ⟨_, hg2⟩
    · exact absurd h2 (h1 ▸ lt_irrefl _)
    · exact hg (le_antisymm hg1 hg2)

section GroupLemmas

variable {K : Type} [DecidableEq K]

theorem fiberSum_perm (k : FileRecord → K) (f : FileRecord → Nat) (key : K)
    {rs₁ rs₂ : List FileRecord} (h : rs₁.Perm rs₂) :
    fiberSum k f key rs₁ = fiberSum k f key rs₂ := by
  induction h with
  | nil => rfl
  | cons x _ ih => simp [fiberSum, ih]
  | swap x y l => simp only [fiberSum]; omega
  | trans _ _ ih₁ ih₂ => exact ih₁.trans ih₂

theorem groupVals_perm (k : FileRecord → K) (key : K)
    {rs₁ rs₂ : List FileRecord} (h : rs₁.Perm rs₂) :
    groupVals k key rs₁ = groupVals k key rs₂ := by
  simp only [groupVals, fiberSum_perm k _ key h]

theorem fiberSum_sum_eq (k : FileRecord → K) (f : FileRecord → Nat)
    (rs : List FileRecord) :
    ∀ s : Finset K, (∀ r ∈ rs, k r ∈ s) →
      (∑ key in s, fiberSum k f key rs) = (rs.map f).sum := by
  induction rs with
  | nil => intro s _; simp [fiberSum]
  | cons r rest ih =>
      intro s hcov
      have hr : k r ∈ s := hcov r (List.mem_cons_self _ _)
      have ih' := ih s (fun x hx => hcov x (List.mem_cons_of_mem _ hx))
      simp only [fiberSum]
      rw [Finset.sum_add_distrib, ih', Finset.sum_ite_eq, if_pos hr]
      simp

theorem groupKeys_nodup (k : FileRecord → K) (rs : List FileRecord) :
    (groupKeys k rs).Nodup :=
  List.nodup_dedup _

end GroupLemmas

section GroupRowsLemmas

variable {K : Type} [DecidableEq K] [LinearOrder K]

/-- The by-key aggregation conserves the total `code` count. -/
theorem groupRows_codeSum (k : FileRecord → K) (rs : List FileRecord) :
    rowsCodeSum (groupRows k rs) = recordsCodeSum rs := by
  unfold rowsCodeSum groupRows
  rw [List.map_map]
  have hmap : ((fun r : AggRow K => r.vals.code) ∘
      fun key => (⟨key, groupVals k key rs⟩ : AggRow K)) = groupCode k rs := rfl
  rw [hmap]
  have hperm : (List.insertionSort (lexRel (groupCode k rs) id) (groupKeys k rs)).map
      (groupCode k rs) |>.Perm ((groupKeys k rs).map (groupCode k rs)) :=
    (List.perm_insertionSort _ _).map _
  rw [hperm.sum_eq]
  rw [← List.sum_toFinset _ (groupKeys_nodup k rs)]
  have htf : (groupKeys k rs).toFinset = (rs.map k).toFinset := by
    apply Finset.ext
    intro a
    simp [groupKeys, List.mem_toFinset]
  rw [htf]
  exact fiberSum_sum_eq k _ rs _ (fun r hr => by
    simp only [List.mem_toFinset, List.mem_map]
    exact ⟨r, hr, rfl⟩)

/-- Aggregation is invariant under permutation of the input records. -/
theorem groupRows_perm (k : FileRecord → K) {rs₁ rs₂ : List FileRecord}
    (h : rs₁.Perm rs₂) : groupRows k rs₁ = groupRows k rs₂ := by
  have hc : groupCode k rs₁ = groupCode k rs₂ :=
    funext fun key => fiberSum_perm _ _ _ h
  have hv : (fun key => (⟨key, groupVals k key rs₁⟩ : AggRow K)) =
      (fun key => (⟨key, groupVals k key rs₂⟩ : AggRow K)) :=
    funext fun key => by rw [groupVals_perm k key h]
  unfold groupRows
  rw [hc, hv]
  congr 1
  haveI : IsAntisymm K (lexRel (groupCode k rs₂) id) :=
    ⟨fun _ _ hab hba => lexRel_antisymm Function.injective_id hab hba⟩
  haveI : IsTotal K (lexRel (groupCode k rs₂) id) := ⟨lexRel_total _ _⟩
  haveI : IsTrans K (lexRel (groupCode k rs₂) id) :=
    ⟨fun _ _ _ => lexRel_trans _ _⟩
  exact List.eq_of_perm_of_sorted
    ((List.perm_insertionSort _ _).trans
      (((h.map k).dedup).trans (List.perm_insertionSort _ _).symm))
    (List.sorted_insertionSort _ _) (List.sorted_insertionSort _ _)

omit [DecidableEq K] [LinearOrder K] in
theorem foldVals_code (rows : List (AggRow K)) :
    (foldVals rows).code = rowsCodeSum rows := by
  induction rows with
  | nil => rfl
  | cons r rest ih => simp only [foldVals, rowsCodeSum, addVals, List.foldr,
      List.map_cons, List.sum_cons] at ih ⊢; omega

omit [DecidableEq K] [LinearOrder K] in
/-- Top-N collapsing conserves the total `code` count. -/
theorem topCollapse_codeSum (otherKey : K) (top : Option Nat)
    (rows : List (AggRow K)) :
    rowsCodeSum (topCollapse otherKey top rows) = rowsCodeSum rows := by
  cases top with
  | none => rfl
  | some k =>
      show rowsCodeSum (if rows.length ≤ k then rows
        else rows.take k ++ [⟨otherKey, foldVals (rows.drop k)⟩]) = rowsCodeSum rows
      by_cases h : rows.length ≤ k
      · rw [if_pos h]
      · rw [if_neg h]
        have hsplit : rowsCodeSum rows =
            rowsCodeSum (rows.take k) + rowsCodeSum (rows.drop k) := by
          conv_lhs => rw [← List.take_append_drop k rows]
          simp [rowsCodeSum]
        have hfold := foldVals_code (K := K) (rows.drop k)
        simp only [rowsCodeSum, List.map_append, List.sum_append, List.map_cons,
          List.map_nil, List.sum_cons, List.sum_nil] at hsplit hfold ⊢
        omega

end GroupRowsLemmas

/-- Claim C1: for every language-aggregation run, the sum of the `code` field
across all returned rows (including any synthetic `"Other"` row) equals the
sum of `code` across all input FileRecord — top collapsing silently drops no
counts. -/
theorem lang_total_conservation (top : Option Nat) (rs : List FileRecord) :
    rowsCodeSum (langRows top rs) = recordsCodeSum rs := by
  unfold langRows
  rw [topCollapse_codeSum, groupRows_codeSum]

theorem groupRows_length {K : Type} [DecidableEq K] [LinearOrder K]
    (k : FileRecord → K) (rs : List FileRecord) :
    (groupRows k rs).length = ((rs.map k).dedup).length := by
  simp [groupRows, groupKeys]

/-- Claim C3: with `top = k` set, lang mode returns at most `k + 1` rows,
exactly `k + 1` rows when more than `k` distinct languages exist, and emits
no `"Other"` row (the rows are the uncollapsed aggregation) when fewer than
`k` distinct languages exist. -/
theorem lang_top_bound (kk : Nat) (rs : List FileRecord) :
    (langRows (some kk) rs).length ≤ kk + 1 ∧
    (kk < ((rs.map (·.language)).dedup).length →
      (langRows (some kk) rs).length = kk + 1) ∧
    (((rs.map (·.language)).dedup).length < kk →
      langRows (some kk) rs = groupRows (·.language) rs) := by
  have hlen : (groupRows (·.language) rs).length =
      ((rs.map (·.language)).dedup).length := groupRows_length _ _
  have hred : langRows (some kk) rs =
      (if (groupRows (·.language) rs).length ≤ kk then groupRows (·.language) rs
       else (groupRows (·.language) rs).take kk ++
         [⟨"Other", foldVals ((groupRows (·.language) rs).drop kk)⟩]) := rfl
  by_cases h : (groupRows (·.language) rs).length ≤ kk
  · rw [hred, if_pos h]
    exact ⟨by omega, fun hk => by omega, fun _ => rfl⟩
  · rw [hred, if_neg h]
    have hlt : kk < (groupRows (·.language) rs).length := lt_of_not_le h
    refine ⟨?_, fun _ => ?_, fun hk => absurd hlt (by omega)⟩
    · simp [List.length_append, List.length_take]
    · simp [List.length_append, List.length_take]
      omega

/-- Witness for C3 at a concrete input: three distinct languages, `top = 1`. -/
theorem lang_top_bound_witness :
    (langRows (some 1) sampleRecs).length ≤ 1 + 1 ∧
    (1 < ((sampleRecs.map (·.language)).dedup).length →
      (langRows (some 1) sampleRecs).length = 1 + 1) ∧
    (((sampleRecs.map (·.language)).dedup).length < 1 →
      langRows (some 1) sampleRecs = groupRows (·.language) sampleRecs) :=
  lang_top_bound 1 sampleRecs

theorem exportKey_injective : Function.Injective exportKey := by
  intro a b h
  cases a
  cases b
  simp only [exportKey, toLex_inj, Prod.mk.injEq, List.cons.injEq, and_true,
    FileRecord.mk.injEq] at h ⊢
  obtain ⟨h1, h2, h3, h4, h5, h6, h7⟩ := h
  exact ⟨h1, h2, h3, h4, h5, h6, h7⟩

theorem exportRows_perm (min_code : Nat) (max_rows : Option Nat)
    {rs₁ rs₂ : List FileRecord} (h : rs₁.Perm rs₂) :
    exportRows min_code max_rows rs₁ = exportRows min_code max_rows rs₂ := by
  have hsorted : List.insertionSort (lexRel (·.code) exportKey)
      (rs₁.filter (fun r => decide (min_code ≤ r.code))) =
    List.insertionSort (lexRel (·.code) exportKey)
      (rs₂.filter (fun r => decide (min_code ≤ r.code))) := by
    haveI : IsAntisymm FileRecord (lexRel (·.code) exportKey) :=
      ⟨fun _ _ hab hba => lexRel_antisymm exportKey_injective hab hba⟩
    haveI : IsTotal FileRecord (lexRel (·.code) exportKey) := ⟨lexRel_total _ _⟩
    haveI : IsTrans FileRecord (lexRel (·.code) exportKey) :=
      ⟨fun _ _ _ => lexRel_trans _ _⟩
    exact List.eq_of_perm_of_sorted
      ((List.perm_insertionSort _ _).trans ((h.filter _).trans
        (List.perm_insertionSort _ _).symm))
      (List.sorted_insertionSort _ _) (List.sorted_insertionSort _ _)
  cases max_rows with
  | none => simp only [exportRows]; rw [hsorted]
  | some m => simp only [exportRows]; rw [hsorted]

/-- Claim C2: for fixed arguments, the Aggregator (lang and module grouping),
the Exporter, the Analyzer and the Diff Engine produce identical row ordering
and identical values on any permutation of the input record sequence; since
all components are pure functions, repeated calls on the same input are
identical as well. -/
theorem engine_determinism (top : Option Nat) (roots : List (List String))
    (children : Children) (depth : Nat) (min_code : Nat) (max_rows : Option Nat)
    (preset : String) (other : List (AggRow String))
    {rs₁ rs₂ : List FileRecord} (h : rs₁.Perm rs₂) :
    langRows top rs₁ = langRows top rs₂ ∧
    moduleRows roots children depth rs₁ = moduleRows roots children depth rs₂ ∧
    exportRows min_code max_rows rs₁ = exportRows min_code max_rows rs₂ ∧
    analyzeDerived preset (groupRows (·.language) rs₁) =
      analyzeDerived preset (groupRows (·.language) rs₂) ∧
    diffRows (langRows top rs₁) other = diffRows (langRows top rs₂) other := by
  have hlang : langRows top rs₁ = langRows top rs₂ := by
    unfold langRows
    rw [groupRows_perm _ h]
  exact ⟨hlang, by unfold moduleRows; rw [groupRows_perm _ h],
         exportRows_perm _ _ h, by rw [groupRows_perm _ h], by rw [hlang]⟩

/-- Witness for C2 at a concrete input: the sample records in two scan
orders. -/
theorem engine_determinism_witness :
    sampleRecs.Perm sampleRecsSwapped ∧
    (langRows (some 1) sampleRecs = langRows (some 1) sampleRecsSwapped ∧
     moduleRows [] .collapse 1 sampleRecs = moduleRows [] .collapse 1 sampleRecsSwapped ∧
     exportRows 2 (some 1) sampleRecs = exportRows 2 (some 1) sampleRecsSwapped ∧
     analyzeDerived "totals" (groupRows (·.language) sampleRecs) =
       analyzeDerived "totals" (groupRows (·.language) sampleRecsSwapped) ∧
     diffRows (langRows (some 1) sampleRecs) [] =
       diffRows (langRows (some 1) sampleRecsSwapped) []) :=
  ⟨by decide, engine_determinism (some 1) [] .collapse 1 2 (some 1) "totals" [] (by decide)⟩

/-- Claim C5: every export row satisfies `code >= min_code`; with `max_rows`
set the row count is at most `max_rows` and equals the minimum of `max_rows`
and the number of records passing the filter, so the row budget is spent only
on rows that pass the filter (filter before sort before truncate). -/
theorem export_bounds (min_code m : Nat) (rs : List FileRecord) :
    (∀ r ∈ exportRows min_code (some m) rs, min_code ≤ r.code) ∧
    (exportRows min_code (some m) rs).length ≤ m ∧
    (exportRows min_code (some m) rs).length =
      min m ((rs.filter (fun r => decide (min_code ≤ r.code))).length) ∧
    (∀ r ∈ exportRows min_code none rs, min_code ≤ r.code) := by
  have hex : exportRows min_code (some m) rs =
      (List.insertionSort (lexRel (·.code) exportKey)
        (rs.filter (fun r => decide (min_code ≤ r.code)))).take m := rfl
  have hex0 : exportRows min_code none rs =
      List.insertionSort (lexRel (·.code) exportKey)
        (rs.filter (fun r => decide (min_code ≤ r.code))) := rfl
  have hmem : ∀ r ∈ List.insertionSort (lexRel (·.code) exportKey)
      (rs.filter (fun r => decide (min_code ≤ r.code))), min_code ≤ r.code := by
    intro r hr
    rw [List.mem_insertionSort] at hr
    exact of_decide_eq_true (List.mem_filter.mp hr).2
  refine ⟨fun r hr => ?_, ?_, ?_, fun r hr => ?_⟩
  · rw [hex] at hr
    exact hmem r (List.mem_of_mem_take hr)
  · rw [hex]
    simp [List.length_take]
  · rw [hex]
    simp [List.length_take]
  · rw [hex0] at hr
    exact hmem r hr

/-- Witness for C5 at a concrete input: `min_code = 2`, `max_rows = 1`. -/
theorem export_bounds_witness :
    (∀ r ∈ exportRows 2 (some 1) sampleRecs, 2 ≤ r.code) ∧
    (exportRows 2 (some 1) sampleRecs).length ≤ 1 ∧
    (exportRows 2 (some 1) sampleRecs).length =
      min 1 ((sampleRecs.filter (fun r => decide (2 ≤ r.code))).length) ∧
    (∀ r ∈ exportRows 2 none sampleRecs, 2 ≤ r.code) :=
  export_bounds 2 1 sampleRecs

theorem moduleKey_depth_factor (roots : List (List String)) {d1 d2 : Nat}
    (hd : d1 ≤ d2) (r : FileRecord) :
    moduleKey roots .collapse d1 r =
      WithBot.map (List.take d1) (moduleKey roots .collapse d2 r) := by
  unfold moduleKey
  by_cases h : roots.isEmpty || roots.any (fun root => root.isPrefixOf r.path)
  · rw [if_pos h, if_pos h]
    show (↑(r.path.take d1) : WithBot (List String)) =
      WithBot.map (List.take d1) ↑(r.path.take d2)
    rw [WithBot.map_coe, List.take_take, Nat.min_eq_left hd]
  · rw [if_neg h, if_neg h]
    rfl

theorem listToFinset_map {α β : Type} [DecidableEq α] [DecidableEq β]
    (f : α → β) (l : List α) : (l.map f).toFinset = l.toFinset.image f := by
  apply Finset.ext
  intro b
  simp

theorem moduleRowCount_eq_card (roots : List (List String)) (children : Children)
    (depth : Nat) (rs : List FileRecord) :
    moduleRowCount roots children depth rs =
      ((rs.map (moduleKey roots children depth)).toFinset).card := by
  rw [moduleRowCount, moduleRows, groupRows_length,
      ← List.toFinset_card_of_nodup (List.nodup_dedup _)]
  congr 1
  apply Finset.ext
  intro a
  simp

/-- Claim C8: for a fixed input tree and fixed other arguments, increasing
`module_depth` never decreases the number of distinct module rows: the deeper
key refines the shallower one, so grouping at depth `d2 >= d1` yields at least
as many rows. -/
theorem module_depth_monotone (roots : List (List String)) (children : Children)
    {d1 d2 : Nat} (hd : d1 ≤ d2) (rs : List FileRecord) :
    moduleRowCount roots children d1 rs ≤ moduleRowCount roots children d2 rs := by
  cases children with
  | separate =>
      have hk : moduleKey roots .separate d1 = moduleKey roots .separate d2 := by
        funext r
        rfl
      rw [moduleRowCount, moduleRowCount, moduleRows, moduleRows, hk]
  | collapse =>
      rw [moduleRowCount_eq_card, moduleRowCount_eq_card]
      have hf : moduleKey roots .collapse d1 =
          (WithBot.map (List.take d1)) ∘ moduleKey roots .collapse d2 :=
        funext (moduleKey_depth_factor roots hd)
      rw [hf, ← List.map_map, listToFinset_map]
      exact Finset.card_image_le

/-- Witness for C8 at a concrete input: depths 1 and 2 over the sample
records. -/
theorem module_depth_monotone_witness :
    1 ≤ 2 ∧ moduleRowCount [] .collapse 1 sampleRecs ≤
      moduleRowCount [] .collapse 2 sampleRecs :=
  ⟨by decide, module_depth_monotone [] .collapse (by decide) sampleRecs⟩

/-- Claim C4: diffing any receipt against itself yields a zero delta in every
numeric field of every row and a zero (hence undefined-or-zero) percent
change in every row. -/
theorem diff_self_identity {K : Type} [DecidableEq K] [LinearOrder K]
    (rows : List (AggRow K)) (d : DiffRow K)
    (hd : d ∈ diffRows rows rows) : d.delta = zeroDelta ∧ d.pct = some 0 := by
  unfold diffRows at hd
  rw [List.mem_map] at hd
  obtain ⟨key, _, rfl⟩ := hd
  constructor
  · show deltaOf (lookupVals rows key) (lookupVals rows key) = zeroDelta
    simp [deltaOf, zeroDelta]
  · show pctChange (lookupVals rows key).code
        (((lookupVals rows key).code : Int) - ((lookupVals rows key).code : Int)) =
      some 0
    rw [sub_self]
    unfold pctChange
    split_ifs with h1 h2
    · simp
    · exact absurd rfl h2
    · rfl

/-- Witness for C4 at a concrete input: the one-row self-diff of a one-row
receipt. -/
theorem diff_self_identity_witness :
    ((⟨"LangA", ⟨1, 0, 3, 4, 5⟩, ⟨1, 0, 3, 4, 5⟩, ⟨0, 0, 0, 0, 0⟩, some 0⟩ :
        DiffRow String) ∈
      diffRows [⟨"LangA", ⟨1, 0, 3, 4, 5⟩⟩] [⟨"LangA", ⟨1, 0, 3, 4, 5⟩⟩]) ∧
    ((⟨"LangA", ⟨1, 0, 3, 4, 5⟩, ⟨1, 0, 3, 4, 5⟩, ⟨0, 0, 0, 0, 0⟩, some 0⟩ :
        DiffRow String).delta = zeroDelta ∧
     (⟨"LangA", ⟨1, 0, 3, 4, 5⟩, ⟨1, 0, 3, 4, 5⟩, ⟨0, 0, 0, 0, 0⟩, some 0⟩ :
        DiffRow String).pct = some 0) :=
  ⟨by decide,
   diff_self_identity [⟨"LangA", ⟨1, 0, 3, 4, 5⟩⟩]
     ⟨"LangA", ⟨1, 0, 3, 4, 5⟩, ⟨1, 0, 3, 4, 5⟩, ⟨0, 0, 0, 0, 0⟩, some 0⟩
     (by decide)⟩

/-- Claim C6: run_json on an unrecognized mode with the empty-object payload
returns a structured envelope with error true and code invalid_mode, and
run_json on mode lang with a malformed payload returns the invalid_json
envelope; the boundary is a total function into the envelope shape, so no
exception crosses it. -/
theorem runJson_error_envelopes (src : List FileRecord) :
    objLookup (runJson src "invalid_mode" "\x7b\x7d") "error" =
      some (.bool true) ∧
    objLookup (runJson src "invalid_mode" "\x7b\x7d") "code" =
      some (.str "invalid_mode") ∧
    objLookup (runJson src "lang" "not valid json") "error" =
      some (.bool true) ∧
    objLookup (runJson src "lang" "not valid json") "code" =
      some (.str "invalid_json") :=
  ⟨rfl, rfl, rfl, rfl⟩

/-- Claim C10: version mode succeeds on the empty-object payload and returns
an object carrying the version and schema_version keys; it is not an error
envelope and carries no rows key, a shape distinct from the row-carrying
receipts. -/
theorem runJson_version_shape (src : List FileRecord) :
    runJson src "version" "\x7b\x7d" =
      Json.obj [("version", Json.str versionString),
                ("schema_version", Json.num (SCHEMA_VERSION : Int))] ∧
    objLookup (runJson src "version" "\x7b\x7d") "version" =
      some (.str versionString) ∧
    objLookup (runJson src "version" "\x7b\x7d") "schema_version" =
      some (.num (SCHEMA_VERSION : Int)) ∧
    objLookup (runJson src "version" "\x7b\x7d") "rows" = none ∧
    isErrorEnvelope (runJson src "version" "\x7b\x7d") = false :=
  ⟨rfl, rfl, rfl, rfl, rfl⟩

/-- Claim C9: the wrapper run raises a TokmdError exactly when the engine
returns an error envelope for the same mode and arguments, and on success it
returns the engine receipt unchanged without raising. -/
theorem run_raises_iff_error (src : List FileRecord) (mode : String) (j : Json) :
    ((∃ e, run src mode j = Except.error e) ↔
      isErrorEnvelope (runJsonCore src mode j) = true) ∧
    (isErrorEnvelope (runJsonCore src mode j) = false →
      run src mode j = Except.ok (runJsonCore src mode j)) := by
  have hrun : run src mode j =
      (match objLookup (runJsonCore src mode j) "error" with
       | some (.bool true) =>
           Except.error ⟨(match objLookup (runJsonCore src mode j) "code" with
                          | some (.str c) => c
                          | _ => "unknown"),
                         (match objLookup (runJsonCore src mode j) "message" with
                          | some (.str m) => m
                          | _ => "")⟩
       | _ => Except.ok (runJsonCore src mode j)) := rfl
  have hie : isErrorEnvelope (runJsonCore src mode j) =
      (match objLookup (runJsonCore src mode j) "error" with
       | some (.bool true) => true
       | _ => false) := rfl
  rw [hrun, hie]
  cases hm : objLookup (runJsonCore src mode j) "error" with
  | none => simp
  | some v =>
      cases v with
      | null => simp
      | bool b => cases b with
          | false => simp
          | true => simp
      | num n => simp
      | str s => simp
      | arr xs => simp
      | obj ms => simp

/-- Witness for C9 at a concrete input: an unrecognized mode over the empty
argument object. -/
theorem run_raises_iff_error_witness :
    ((∃ e, run [] "invalid_mode" (Json.obj []) = Except.error e) ↔
      isErrorEnvelope (runJsonCore [] "invalid_mode" (Json.obj [])) = true) ∧
    (isErrorEnvelope (runJsonCore [] "invalid_mode" (Json.obj [])) = false →
      run [] "invalid_mode" (Json.obj []) =
        Except.ok (runJsonCore [] "invalid_mode" (Json.obj []))) :=
  run_raises_iff_error [] "invalid_mode" (Json.obj [])

/-- Claim C7: the receipt's args field is the fully resolved and defaulted
configuration actually applied: it is echoed exactly as resolved, two calls
whose options resolve to the same configuration produce identical receipts
from the same inputs, and the caller-supplied files option appears under the
normalized with_files key. -/
theorem receipt_args_resolved (o o' : LangOptions) (rs : List FileRecord)
    (h : resolveLangArgs o = resolveLangArgs o') :
    (langReceipt o rs).args = resolveLangArgs o ∧
    (resolveLangArgs ⟨o.paths, o.top, some true, o.children⟩).with_files = true ∧
    langReceipt o rs = langReceipt o' rs := by
  refine ⟨rfl, rfl, ?_⟩
  unfold langReceipt
  rw [h]

/-- Witness for C7 at a concrete input: an explicit `files = false` and an
absent `files` option resolve to the same configuration. -/
theorem receipt_args_resolved_witness :
    (langReceipt ⟨["src"], none, some false, none⟩ sampleRecs).args =
      resolveLangArgs ⟨["src"], none, some false, none⟩ ∧
    (resolveLangArgs ⟨["src"], none, some true, none⟩).with_files = true ∧
    langReceipt ⟨["src"], none, some false, none⟩ sampleRecs =
      langReceipt ⟨["src"], none, none, none⟩ sampleRecs :=
  receipt_args_resolved ⟨["src"], none, some false, none⟩
    ⟨["src"], none, none, none⟩ sampleRecs (by decide)

end Tokmd
